import Mathlib

/-!
Verification of the IMAP client core of the email-management repository.

The definitions below are a shallow embedding, translated from the Python
sources:
* src/openmail/imap/client.py        (IMAPClient: selection cache, progressive
                                      UID-window search, pagination, STORE)
* src/email_management/imap/query.py (IMAPQuery builder, string quoting, dates)
* src/email_management/auth/oauth2.py (XOAUTH2 authentication string)

Python strings are modelled as List Char, Python ints as Nat (all integers
involved are non-negative; every subtraction site is annotated where Python's
arithmetic could go below zero), exceptions as an Except with an error kind,
and the mutable Python lists reachable from an IMAPQuery as a store
(List of token lists) indexed by position, so that aliasing and mutation are
observable.
-/

namespace EmailMgmt

/-- Python exception kinds raised by the modelled code paths. -/
inductive PyErr where
  | imapError (msg : String)
  | valueError (msg : String)
  deriving DecidableEq, Repr

/-! ## Mailbox selection cache (client.py, IMAPClient._ensure_selected) -/

/-- Per-connection selection state (client.py, _ConnState): fields
selected_mailbox and selected_readonly, both initially None. -/
structure ConnSelState where
  selected_mailbox : Option String
  selected_readonly : Option Bool
  deriving DecidableEq, Repr

/-- Result of one _ensure_selected call: the updated cached state and the
number of SELECT commands issued (0 or 1).  The server's SELECT is assumed to
answer OK; on a non-OK answer the source raises IMAPError before touching the
cached state, which no claim exercises. -/
structure EnsureResult where
  state : ConnSelState
  selects : Nat
  deriving DecidableEq, Repr

/-- client.py lines 229-247, IMAPClient._ensure_selected.
Returns without a SELECT when the cached mailbox matches and the cached mode
satisfies the request (selected_readonly is False, i.e. read-write, satisfies
any request; selected_readonly is True satisfies only a readonly request);
otherwise issues one SELECT and overwrites the cached state. -/
def ensure_selected (st : ConnSelState) (mailbox : String) (readonly : Bool) :
    EnsureResult :=
  if st.selected_mailbox = some mailbox ∧
      (st.selected_readonly = some false ∨
        (readonly = true ∧ st.selected_readonly = some true)) then
    ⟨st, 0⟩
  else
    ⟨⟨some mailbox, some readonly⟩, 1⟩

/-! ## EmailRef and the flag-store operations (client.py) -/

/-- openmail.types.EmailRef: an opaque handle (uid, mailbox). -/
structure EmailRef where
  uid : Nat
  mailbox : String
  deriving DecidableEq, Repr

/-- An IMAP command observable on the wire for the modelled mutation paths. -/
inductive IMAPCmd where
  | select (mailbox : String) (readonly : Bool)
  | store (mailbox : String) (uids : String) (mode : String) (flags : String)
  deriving DecidableEq, Repr

/-- Outcome of add_flags / remove_flags: the Python return or exception, the
IMAP commands issued, and whether a pooled connection was acquired at all. -/
structure StoreOutcome where
  result : Except PyErr Unit
  cmds : List IMAPCmd
  connAcquired : Bool
  deriving Repr

/-- client.py lines 249-259, IMAPClient._assert_same_mailbox: empty refs and
mixed mailboxes raise IMAPError; otherwise returns the shared mailbox.  The
source compares every ref's mailbox against refs[0].mailbox in a loop and
raises at the first mismatch; the result (error or the common mailbox) is the
same as this all-check. -/
def assert_same_mailbox (refs : List EmailRef) (op_name : String) :
    Except PyErr String :=
  match refs with
  | [] => .error (.imapError (op_name ++ " called with empty refs"))
  | r0 :: _ =>
      if refs.all (fun r => r.mailbox == r0.mailbox) then .ok r0.mailbox
      else .error (.imapError ("All EmailRef.mailbox must match for " ++ op_name))

/-- Rendering of the flag list: parenthesised, space-joined, sorted
(client.py line 916). -/
def flagListArg (flags : List String) : String :=
  "(" ++ String.intercalate " " (List.insertionSort (· ≤ ·) flags) ++ ")"

/-- client.py lines 908-921, IMAPClient._store.  Empty refs return before any
work; a mailbox mismatch raises before the connection pool is touched; only
then is a connection acquired, the mailbox selected read-write and one UID
STORE issued.  Server responses to SELECT/STORE are assumed OK (a non-OK
response raises after the commands were already issued, which no claim
exercises). -/
def _store (refs : List EmailRef) (mode : String) (flags : List String) :
    StoreOutcome :=
  if refs.isEmpty then ⟨.ok (), [], false⟩
  else
    match assert_same_mailbox refs "_store" with
    | .error e => ⟨.error e, [], false⟩
    | .ok mailbox =>
        ⟨.ok (), [.select mailbox false,
          .store mailbox
            (String.intercalate "," (refs.map (fun r => toString r.uid)))
            mode (flagListArg flags)], true⟩

/-- client.py lines 902-903: add_flags delegates to _store with mode +FLAGS. -/
def add_flags (refs : List EmailRef) (flags : List String) : StoreOutcome :=
  _store refs "+FLAGS" flags

/-- client.py lines 905-906: remove_flags delegates to _store, mode -FLAGS. -/
def remove_flags (refs : List EmailRef) (flags : List String) : StoreOutcome :=
  _store refs "-FLAGS" flags

/-! ## Query-string quoting (email_management/imap/query.py) -/

/-- Python str.replace specialised to a single-character needle, which is all
the quoting code uses: every occurrence of the character is replaced by the
replacement sequence. -/
def pyReplaceChar (tgt : Char) (rep : List Char) (s : List Char) : List Char :=
  s.flatMap (fun c => if c = tgt then rep else [c])

/-- query.py lines 14-20, _q: escape backslash, then escape double-quote, then
wrap the result in double quotes. -/
def _q (s : List Char) : List Char :=
  let s1 := pyReplaceChar '\\' ['\\', '\\'] s
  let s2 := pyReplaceChar '"' ['\\', '"'] s1
  '"' :: (s2 ++ ['"'])

/-- The spec's description of quoting as a single pass: each backslash becomes
two backslashes, each double-quote becomes backslash-quote, all other
characters are kept, and the result is wrapped in double quotes. -/
def specQuote (s : List Char) : List Char :=
  '"' :: (s.flatMap (fun c =>
    if c = '\\' then ['\\', '\\']
    else if c = '"' then ['\\', '"']
    else [c]) ++ ['"'])

/-! ## XOAUTH2 authentication string (email_management/auth/oauth2.py) -/

/-- UTF-8 encoding of one character (code point to 1-4 bytes). -/
def utf8Char (c : Char) : List Nat :=
  let n := c.toNat
  if n < 0x80 then [n]
  else if n < 0x800 then [0xC0 + n / 0x40, 0x80 + n % 0x40]
  else if n < 0x10000 then
    [0xE0 + n / 0x1000, 0x80 + (n / 0x40) % 0x40, 0x80 + n % 0x40]
  else
    [0xF0 + n / 0x40000, 0x80 + (n / 0x1000) % 0x40,
     0x80 + (n / 0x40) % 0x40, 0x80 + n % 0x40]

/-- Python str.encode of a string: UTF-8 bytes of its characters. -/
def utf8Bytes (s : List Char) : List Nat := s.flatMap utf8Char

/-- The RFC 4648 base64 alphabet. -/
def b64Alphabet : List Char :=
  "ABCDEFGHIJKLMNOPQRSTUVWXYZabcdefghijklmnopqrstuvwxyz0123456789+/".data

/-- Character of the base64 alphabet at an index below 64. -/
def b64Char (n : Nat) : Char := b64Alphabet.getD n '?'

/-- Python base64.b64encode on a byte list (RFC 4648 with padding). -/
def b64encode : List Nat → List Char
  | [] => []
  | [a] => [b64Char (a / 4), b64Char (a % 4 * 16), '=', '=']
  | [a, b] => [b64Char (a / 4), b64Char (a % 4 * 16 + b / 16),
               b64Char (b % 16 * 4), '=']
  | a :: b :: c :: rest =>
      [b64Char (a / 4), b64Char (a % 4 * 16 + b / 16),
       b64Char (b % 16 * 4 + c / 64), b64Char (c % 64)] ++ b64encode rest

/-- oauth2.py lines 20-23, OAuth2Auth._xoauth2_string: base64 of the UTF-8
bytes of the f-string user=<username>\x01auth=Bearer <token>\x01\x01.  The
trailing .decode of the source is the identity on the ASCII base64 output and
is not modelled. -/
def _xoauth2_string (username access_token : List Char) : List Char :=
  b64encode (utf8Bytes
    ("user=".data ++ username ++ [Char.ofNat 1] ++
     "auth=Bearer ".data ++ access_token ++ [Char.ofNat 1, Char.ofNat 1]))

/-- The claim's description of the same value: base64 encoding of the UTF-8
bytes of the concatenation user= + u + U+0001 + auth=Bearer + space + T +
U+0001 + U+0001. -/
def specXoauth2 (u t : List Char) : List Char :=
  b64encode (utf8Bytes
    ("user=".data ++ u ++ Char.ofNat 1 :: "auth=Bearer ".data ++ t ++
     [Char.ofNat 1, Char.ofNat 1]))

/-- oauth2.py lines 25-37, OAuth2Auth.apply_imap: the payload that actually
goes out on the wire with AUTHENTICATE XOAUTH2.  The callback auth_cb handed
to imaplib returns auth_str, the already-base64 string computed by
_xoauth2_string; imaplib's authenticate (its internal authenticator object)
base64-encodes whatever the callback returns before sending, so the wire
payload is a second base64 encoding of the authentication string. -/
def apply_imap_sent_payload (username access_token : List Char) : List Char :=
  b64encode (utf8Bytes (_xoauth2_string username access_token))

/-! ## IMAP date rendering (email_management/imap/query.py, _imap_date)

The source calls datetime.strptime(s, a year-month-day format) and renders
with strftime as DD-Mon-YYYY.  CPython's strptime compiles the format into a
regular expression: the year directive matches exactly four of the
backslash-d class, which for str patterns is ANY Unicode decimal digit (the
Nd category); the month directive matches 1[0-2] or 0[1-9] or a single 1-9,
all ASCII literals and ASCII character classes; the day directive matches
3[01] or [12] followed by one backslash-d (so the second digit of days 10-29
may be any Unicode decimal digit) or 0[1-9] or a single 1-9; the literal
dashes match themselves, and any unconsumed trailing input raises
ValueError.  Matched groups are converted with int(), which sums the
per-character decimal values positionally, and the datetime constructor then
requires the year to be at least 1 and the day to be at most the length of
the month. -/

/-- ASCII decimal digit test. -/
def isDig (c : Char) : Bool := 48 ≤ c.toNat && c.toNat ≤ 57

/-- ASCII digit 1-9 test. -/
def dig19 (c : Char) : Bool := 49 ≤ c.toNat && c.toNat ≤ 57

/-- Value of an ASCII digit. -/
def dv (c : Char) : Nat := c.toNat - 48

/-- Start code points of the runs of Unicode decimal digits (category Nd),
generated from this interpreter's Unicode 14 database; every run holds the
digits 0-9 at consecutive code points, with the digit value equal to the
offset from the run's start.  The ASCII run 48-57 comes first. -/
def ndStarts : List Nat :=
  [48, 1632, 1776, 1984, 2406, 2534, 2662, 2790, 2918, 3046, 3174, 3302,
   3430, 3558, 3664, 3792, 3872, 4160, 4240, 6112, 6160, 6470, 6608, 6784,
   6800, 6992, 7088, 7232, 7248, 42528, 43216, 43264, 43472, 43504, 43600,
   44016, 65296, 66720, 68912, 69734, 69872, 69942, 70096, 70384, 70736,
   70864, 71248, 71360, 71472, 71904, 72016, 72784, 73040, 73120, 92768,
   92864, 93008, 120782, 120792, 120802, 120812, 120822, 123200, 123632,
   125264, 130032]

/-- The backslash-d class of CPython regular expressions over str: any
Unicode decimal digit. -/
def uniDigit (c : Char) : Bool :=
  ndStarts.any (fun s => s ≤ c.toNat && c.toNat ≤ s + 9)

/-- Decimal value of a Unicode decimal digit (0 for non-digits), as int()
computes it per character. -/
def udv (c : Char) : Nat :=
  match ndStarts.find? (fun s => s ≤ c.toNat && c.toNat ≤ s + 9) with
  | some s => c.toNat - s
  | none => 0

/-- Value of a digit string as int() computes it: each character contributes
its decimal value positionally (scripts may be mixed). -/
def digitsVal (l : List Char) : Nat := l.foldl (fun a c => 10 * a + udv c) 0

/-- CPython strptime year directive: exactly four Unicode decimal digits. -/
def parseYear4 : List Char → Option (Nat × List Char)
  | a :: b :: c :: d :: rest =>
      if uniDigit a && uniDigit b && uniDigit c && uniDigit d then
        some (1000 * udv a + 100 * udv b + 10 * udv c + udv d, rest)
      else none
  | _ => none

/-- CPython strptime month directive, alternatives tried left to right:
1[0-2], then 0[1-9], then a single digit 1-9. -/
def parseMonth : List Char → Option (Nat × List Char)
  | c1 :: c2 :: rest =>
      if c1 = '1' && (48 ≤ c2.toNat && c2.toNat ≤ 50) then
        some (10 + dv c2, rest)
      else if c1 = '0' && dig19 c2 then some (dv c2, rest)
      else if dig19 c1 then some (dv c1, c2 :: rest)
      else none
  | [c1] => if dig19 c1 then some (dv c1, []) else none
  | [] => none

/-- CPython strptime day directive, alternatives tried left to right:
3[01] (ASCII), then [12] (ASCII) followed by one backslash-d (any Unicode
decimal digit), then 0[1-9] (ASCII), then a single ASCII 1-9. -/
def parseDay : List Char → Option (Nat × List Char)
  | c1 :: c2 :: rest =>
      if c1 = '3' && (c2 = '0' || c2 = '1') then some (30 + dv c2, rest)
      else if (c1 = '1' || c1 = '2') && uniDigit c2 then
        some (10 * dv c1 + udv c2, rest)
      else if c1 = '0' && dig19 c2 then some (dv c2, rest)
      else if dig19 c1 then some (dv c1, c2 :: rest)
      else none
  | [c1] => if dig19 c1 then some (dv c1, []) else none
  | [] => none

/-- strptime of the year-month-day format: year, literal dash, month, literal
dash, day, and nothing may remain (leftover input raises ValueError). -/
def strptimeYMD (s : List Char) : Option (Nat × Nat × Nat) :=
  match parseYear4 s with
  | none => none
  | some (y, r1) =>
      match r1 with
      | [] => none
      | c1 :: r2 =>
          if c1 = '-' then
            match parseMonth r2 with
            | none => none
            | some (m, r3) =>
                match r3 with
                | [] => none
                | c2 :: r4 =>
                    if c2 = '-' then
                      match parseDay r4 with
                      | none => none
                      | some (d, r5) =>
                          match r5 with
                          | [] => some (y, m, d)
                          | _ :: _ => none
                    else none
          else none

/-- Gregorian leap-year rule, as in Python's datetime. -/
def isLeap (y : Nat) : Bool := y % 4 = 0 && (y % 100 ≠ 0 || y % 400 = 0)

/-- Days in a month, as validated by Python's datetime constructor. -/
def daysInMonth (y m : Nat) : Nat :=
  if m = 2 then (if isLeap y then 29 else 28)
  else if m = 4 || m = 6 || m = 9 || m = 11 then 30
  else 31

/-- strftime day rendering: zero-padded to two digits. -/
def pad2 (n : Nat) : List Char :=
  if n < 10 then '0' :: Nat.toDigits 10 n else Nat.toDigits 10 n

/-- strftime abbreviated month name (C locale). -/
def monthAbbrev : Nat → List Char
  | 1 => "Jan".data
  | 2 => "Feb".data
  | 3 => "Mar".data
  | 4 => "Apr".data
  | 5 => "May".data
  | 6 => "Jun".data
  | 7 => "Jul".data
  | 8 => "Aug".data
  | 9 => "Sep".data
  | 10 => "Oct".data
  | 11 => "Nov".data
  | 12 => "Dec".data
  | _ => []

/-- query.py lines 9-11, _imap_date: strptime the ISO-style string, then
strftime as day-monthname-year.  The year is rendered unpadded (glibc
behaviour; every theorem below only evaluates four-digit years, where padded
and unpadded rendering agree). -/
def _imap_date (s : List Char) : Except PyErr (List Char) :=
  match strptimeYMD s with
  | none => .error (.valueError "time data does not match format Y-m-d")
  | some (y, m, d) =>
      if 1 ≤ y && 1 ≤ d && d ≤ daysInMonth y m then
        .ok (pad2 d ++ '-' :: (monthAbbrev m ++ '-' :: Nat.toDigits 10 y))
      else .error (.valueError "day is out of range for month")

/-- The claim's notion of a valid calendar date in strict YYYY-MM-DD form:
four digit year, two digit month, two digit day, dashes between, and the
triple is a real calendar date (year at least 1). -/
def isStrictISODate (s : List Char) : Bool :=
  match s with
  | [a, b, c, d, h1, e, f, h2, g, h] =>
      h1 = '-' && h2 = '-' &&
      [a, b, c, d, e, f, g, h].all isDig &&
      1 ≤ digitsVal [a, b, c, d] &&
      1 ≤ digitsVal [e, f] && digitsVal [e, f] ≤ 12 &&
      1 ≤ digitsVal [g, h] &&
      digitsVal [g, h] ≤ daysInMonth (digitsVal [a, b, c, d]) (digitsVal [e, f])
  | _ => false

/-- Split a character list into the maximal dash-free groups. -/
def splitDash : List Char → List (List Char)
  | [] => [[]]
  | c :: rest =>
      if c = '-' then [] :: splitDash rest
      else
        match splitDash rest with
        | [] => [[c]]
        | g :: gs => (c :: g) :: gs

/-- The digit shapes the day directive accepts: one ASCII digit 1-9, two
ASCII digits, or an ASCII 1 or 2 followed by any Unicode decimal digit (the
day value constraints are imposed separately). -/
def dayShape : List Char → Bool
  | [c] => dig19 c
  | [c1, c2] => (isDig c1 && isDig c2) || ((c1 = '1' || c1 = '2') && uniDigit c2)
  | _ => false

/-- A valid calendar date in the loose year-month-day form accepted by the
source: a four digit year written in Unicode decimal digits, a one or two
digit ASCII month with value 1-12, a one or two digit day whose second digit
may be any Unicode decimal digit when the first is 1 or 2, dash-separated,
with the day value within the month and the year at least 1. -/
def isLooseISODate (s : List Char) : Bool :=
  match splitDash s with
  | [ys, ms, ds] =>
      ys.length = 4 && ys.all uniDigit &&
      1 ≤ ms.length && ms.length ≤ 2 && ms.all isDig &&
      dayShape ds &&
      1 ≤ digitsVal ys &&
      1 ≤ digitsVal ms && digitsVal ms ≤ 12 &&
      1 ≤ digitsVal ds && digitsVal ds ≤ daysInMonth (digitsVal ys) (digitsVal ms)
  | _ => false

/-! ## Progressive UID-window search (client.py lines 340-603)

The IMAP server is abstracted as a mailbox: its UIDNEXT value and the
predicate telling which UIDs match the caller's base criteria.  A UID SEARCH
restricted to a window returns exactly the matching UIDs inside the window in
ascending order, which is what RFC 3501 guarantees and what the code relies
on (comment at client.py line 406).

An IMAPQuery owns a mutable Python list of tokens.  All lists reachable from
queries live in a store (list of token lists); a query is an index into the
store, so that _clone_query allocating a fresh list, and the uid method
mutating it in place, are both observable.  This makes the frame property of
search_page (the caller's query is never mutated) a real statement. -/

/-- client.py lines 63-66, _UIDWindow with inclusive bounds.  The source
field named end is called stop here because end is a Lean keyword. -/
structure _UIDWindow where
  start : Nat
  stop : Nat
  deriving DecidableEq, Repr

/-- The IMAP server state seen by the search engine: UIDNEXT and the set of
UIDs matching the caller's base criteria (only assigned UIDs match, so the
predicate is false at 0 and above UIDNEXT-1 for a faithful server, though no
theorem needs that). -/
structure Mailbox where
  uidnext : Nat
  matchQ : Nat → Bool

/-- The heap of Python token lists reachable from IMAPQuery values. -/
abbrev Store := List (List String)

/-- client.py lines 286-287, IMAPClient._clone_query: builds
IMAPQuery(parts=list(base.parts)), i.e. allocates a fresh list holding a copy
of the tokens.  Returns the grown store and the new query's index. -/
def _clone_query (σ : Store) (q : Nat) : Store × Nat :=
  (σ ++ [σ.getD q []], σ.length)

/-- Modelled from the spec: the uid(range_str) predicate method of the
openmail IMAPQuery (openmail/imap/query.py is not under src/; spec section
4.1 lists uid among the additive predicate methods and section 4.3 shows the
emitted clause UID start:end).  Like every predicate method of the
email_management IMAPQuery in src/, it appends its tokens to the query's
parts list in place. -/
def uidMethod (σ : Store) (q : Nat) (rangeStr : String) : Store :=
  σ.set q (σ.getD q [] ++ ["UID", rangeStr])

/-- query.py lines 104-105, IMAPQuery.build: space-joined tokens, ALL if the
token list is empty. -/
def buildQuery (parts : List String) : String :=
  if parts.isEmpty then "ALL" else String.intercalate " " parts

/-- client.py idiom (q.build() or "ALL"): replace an empty criteria string by
ALL. -/
def orALL (s : String) : String := if s = "" then "ALL" else s

/-- The server's answer to UID SEARCH (criteria AND UID start:stop):
ascending matching UIDs inside the inclusive window. -/
def searchWindow (M : Mailbox) (w : _UIDWindow) : List Nat :=
  (List.range' w.start (w.stop + 1 - w.start)).filter M.matchQ

/-- client.py lines 377-406, IMAPClient._search_in_window: clone the base
query, return no UIDs for an empty window (without contacting the server),
otherwise append the UID window clause to the clone, build the criteria and
run the search.  Returns (store, criteria, ascending uids). -/
def _search_in_window (M : Mailbox) (σ : Store) (base : Nat) (w : _UIDWindow) :
    Store × String × List Nat :=
  let c := _clone_query σ base
  let σ1 := c.1
  let q := c.2
  if w.stop < w.start then (σ1, orALL (buildQuery (σ1.getD q [])), [])
  else
    let σ2 := uidMethod σ1 q (toString w.start ++ ":" ++ toString w.stop)
    (σ2, orALL (buildQuery (σ2.getD q [])), searchWindow M w)

/-- The search knobs of the IMAPClient dataclass (client.py lines 79-84) with
their default values. -/
structure SearchKnobs where
  search_window_factor : Nat := 4
  search_max_rounds : Nat := 6
  search_max_window_uids : Nat := 200000
  max_uids_per_key : Nat := 10000
  deriving Repr

/-- Python tail slice l[-k:].  For k = 0 Python reads l[-0:] = l[0:], the
whole list, not the empty suffix. -/
def pyTailSlice (l : List Nat) (k : Nat) : List Nat :=
  if k = 0 then l else l.drop (l.length - k)

/-- client.py lines 358-361 and 372-375 translated to Nat arithmetic: the
Python expression max(1, e - w + 1) equals the Nat expression
max 1 (e - w + 1) with truncated subtraction, since whenever e - w goes
negative in Python both sides clamp to 1. -/
def _make_window (uidnext : Nat) (before after : Option Nat)
    (window_size : Nat) : Except PyErr _UIDWindow :=
  match before, after with
  | some _, some _ =>
      .error (.valueError "Cannot specify both before_uid and after_uid")
  | some b, none =>
      let stop := max 1 (b - 1)
      .ok ⟨max 1 (stop - window_size + 1), stop⟩
  | none, some a =>
      let newest := max 1 (uidnext - 1)
      let start := a + 1
      let stop0 := min newest (start + window_size - 1)
      let stop := if start ≤ newest then max stop0 start else start - 1
      .ok ⟨start, stop⟩
  | none, none =>
      let newest := max 1 (uidnext - 1)
      .ok ⟨max 1 (newest - window_size + 1), newest⟩

/-- client.py lines 461-464: merge freshly found UIDs into the accumulator,
skipping any UID already present.  The source guards with a seen set that
always holds exactly the accumulator's elements, so the membership test on
the accumulator is the same test. -/
def dedupAppend (acc uids : List Nat) : List Nat :=
  uids.foldl (fun a u => if u ∈ a then a else a ++ [u]) acc

/-- The mutable locals of the round loop of _search_progressive. -/
structure ProgState where
  store : Store
  win : _UIDWindow
  acc : List Nat
  chunk : Nat
  scannedLow : Option Nat
  scannedHigh : Option Nat
  lastCriteria : String

/-- client.py lines 447-501, the round loop of _search_progressive, with the
remaining round count as fuel.  Each round: stop on an empty window; search
the window; merge the new UIDs into the accumulator skipping those already
seen and re-sort ascending (the source keeps a seen set that always holds
exactly the accumulator's elements, so membership in the accumulator is the
same test); stop once the accumulator can fill the page with headroom; update
the scanned span and stop when it reaches the cap; multiply the chunk size by
the window factor and move to the next non-overlapping window in the
direction of the scan, stopping at the newest UID (forward) or at UID 1
(backward). -/
def progLoop (K : SearchKnobs) (M : Mailbox) (base : Nat) (after : Option Nat)
    (newest want : Nat) : Nat → ProgState → Store × String × List Nat
  | 0, s => (s.store, s.lastCriteria, s.acc)
  | fuel + 1, s =>
    if s.win.stop < s.win.start then (s.store, s.lastCriteria, s.acc)
    else
      let r := _search_in_window M s.store base s.win
      let σ := r.1
      let criteria := r.2.1
      let uids := r.2.2
      let acc2 := List.insertionSort (· ≤ ·) (dedupAppend s.acc uids)
      if want ≤ acc2.length then (σ, criteria, acc2)
      else
        let sLow := match s.scannedLow with
          | none => some s.win.start
          | some v => some (min v s.win.start)
        let sHigh := match s.scannedHigh with
          | none => some s.win.stop
          | some v => some (max v s.win.stop)
        let stopBySpan := match sLow, sHigh with
          | some lo, some hi => decide (K.search_max_window_uids ≤ hi - lo + 1)
          | _, _ => false
        if stopBySpan then (σ, criteria, acc2)
        else
          let chunk := s.chunk * K.search_window_factor
          match after with
          | some _ =>
              let nextStart := s.win.stop + 1
              if newest < nextStart then (σ, criteria, acc2)
              else
                progLoop K M base after newest want fuel
                  ⟨σ, ⟨nextStart, min newest (nextStart + chunk - 1)⟩,
                   acc2, chunk, sLow, sHigh, criteria⟩
          | none =>
              let nextStop := s.win.start - 1
              if nextStop < 1 then (σ, criteria, acc2)
              else
                progLoop K M base after newest want fuel
                  ⟨σ, ⟨max 1 (nextStop - chunk + 1), nextStop⟩,
                   acc2, chunk, sLow, sHigh, criteria⟩

/-- client.py lines 408-509, IMAPClient._search_progressive: compute the page
budget (want), probe UIDNEXT, build the first window sized want, seed the
scanned span from it when it is non-empty, run the round loop, and keep only
the tail of an oversized accumulator.  Returns (store, last criteria,
ascending uids).  The Python locals want, newest and the initial chunk_size
(all three equal at entry, chunk_size = want, and newest = UIDNEXT-1 clamped
to 1) are inlined at their use sites. -/
def _search_progressive (K : SearchKnobs) (M : Mailbox) (σ : Store)
    (base : Nat) (page_size : Nat) (before after : Option Nat) :
    Except PyErr (Store × String × List Nat) :=
  match _make_window M.uidnext before after
      (max 1 (page_size * K.search_window_factor)) with
  | .error e => .error e
  | .ok win =>
      let out := progLoop K M base after (max 1 (M.uidnext - 1))
        (max 1 (page_size * K.search_window_factor)) K.search_max_rounds
        ⟨σ, win, [], max 1 (page_size * K.search_window_factor),
         if win.start ≤ win.stop then some win.start else none,
         if win.start ≤ win.stop then some win.stop else none,
         orALL (buildQuery (σ.getD base []))⟩
      .ok (out.1, out.2.1,
        if K.max_uids_per_key < out.2.2.length
          then pyTailSlice out.2.2 K.max_uids_per_key else out.2.2)

/-- Modelled from the spec: PagedSearchResult (openmail/imap/pagination.py is
not under src/; spec section 3 lists the fields, the anchors defaulting to
None and total to the window total).  The field values are all visible in the
constructor calls of search_page in client.py. -/
structure PagedSearchResult where
  refs : List EmailRef
  next_before_uid : Option Nat := none
  prev_after_uid : Option Nat := none
  newest_uid : Option Nat := none
  oldest_uid : Option Nat := none
  total : Nat := 0
  has_next : Bool := false
  has_prev : Bool := false
  deriving DecidableEq, Repr

/-- client.py lines 555-595, the pagination-assembly second half of
IMAPClient.search_page (factored out of search_page below so that its
properties can be stated about a total function): return an empty page when
nothing matched, slice the page out of the ascending accumulator (tail for
backward or top pages, head for forward pages), reverse it into newest-first
refs and derive the anchors and flags. -/
def assemblePage (mailbox : String) (page_size : Nat)
    (before after : Option Nat) (uids : List Nat) : PagedSearchResult :=
  if uids.isEmpty then
    { refs := [], total := 0, has_next := false, has_prev := false }
  else
    let pageAsc :=
      if before.isSome then pyTailSlice uids page_size
      else if after.isSome then uids.take page_size
      else pyTailSlice uids page_size
    match pageAsc with
    | [] => { refs := [], total := 0, has_next := false, has_prev := false }
    | oldest :: _ =>
        let refs := pageAsc.reverse.map (fun u => EmailRef.mk u mailbox)
        let newest := pageAsc.getLastD 0
        let known_more := pageAsc.length < uids.length
        let has_older :=
          if before.isSome then known_more || decide (1 < oldest)
          else if after.isSome then true
          else known_more || decide (1 < oldest)
        let has_newer :=
          if before.isSome then true
          else if after.isSome then known_more
          else false
        { refs := refs,
          next_before_uid := if has_older then some oldest else none,
          prev_after_uid := if has_newer then some newest else none,
          newest_uid := some newest,
          oldest_uid := some oldest,
          total := uids.length,
          has_next := has_older,
          has_prev := has_newer }

/-- client.py lines 531-595, IMAPClient.search_page: reject two anchors, run
the progressive search and assemble the page from the ascending UID
accumulator. -/
def search_page (K : SearchKnobs) (M : Mailbox) (σ : Store) (base : Nat)
    (mailbox : String) (page_size : Nat) (before after : Option Nat) :
    Except PyErr (Store × PagedSearchResult) :=
  if before.isSome && after.isSome then
    .error (.valueError "Cannot specify both before_uid and after_uid")
  else
    match _search_progressive K M σ base page_size before after with
    | .error e => .error e
    | .ok (σ', _criteria, uids) =>
        .ok (σ', assemblePage mailbox page_size before after uids)

/-! ## Helper lemmas -/

/-- Composing the two character replacements of _q is the single-pass escape
described by the spec. -/
theorem replace_backslash_then_quote (s : List Char) :
    pyReplaceChar '"' ['\\', '"'] (pyReplaceChar '\\' ['\\', '\\'] s) =
      s.flatMap (fun c =>
        if c = '\\' then ['\\', '\\']
        else if c = '"' then ['\\', '"']
        else [c]) := by
  induction s with
  | nil => rfl
  | cons c cs ih =>
      by_cases h1 : c = '\\'
      · subst h1
        simpa [pyReplaceChar] using ih
      · by_cases h2 : c = '"'
        · subst h2
          simpa [pyReplaceChar] using ih
        · simpa [pyReplaceChar, h1, h2] using ih

/-! ## Claim theorems (with their witnesses and counterexamples) -/

/-- C4: _ensure_selected issues no SELECT and keeps the cached state exactly
when the cached mailbox equals the requested one and the cached mode
satisfies the requested mode (cached read-write satisfies any request, cached
read-only satisfies only a read-only request); otherwise it issues exactly
one SELECT and caches the requested values.  Consequently a read-write
request after a read-only selection of the same mailbox issues exactly one
SELECT, and a second consecutive read-write request issues none. -/
theorem ensure_selected_cache_contract :
    ∀ (st : ConnSelState) (m : String) (ro : Bool),
      (ensure_selected st m ro =
        if st.selected_mailbox = some m ∧
            (st.selected_readonly = some false ∨
              (ro = true ∧ st.selected_readonly = some true)) then
          ⟨st, 0⟩
        else ⟨⟨some m, some ro⟩, 1⟩) ∧
      ensure_selected ⟨some m, some true⟩ m false = ⟨⟨some m, some false⟩, 1⟩ ∧
      ensure_selected ⟨some m, some false⟩ m false = ⟨⟨some m, some false⟩, 0⟩ := by
  intro st m ro
  refine ⟨rfl, ?_, ?_⟩ <;> simp [ensure_selected]

/-- C5: the quoting function _q escapes every backslash as two backslashes,
then every double-quote as backslash-quote, and wraps the result in double
quotes; quoting the empty string yields two double-quote characters, and
quoting a-quote-b-backslash-c yields the expected escaped form. -/
theorem quote_escapes_and_wraps :
    (∀ s : List Char, _q s = specQuote s) ∧
    _q [] = ['"', '"'] ∧
    _q ['a', '"', 'b', '\\', 'c'] =
      ['"', 'a', '\\', '"', 'b', '\\', '\\', 'c', '"'] := by
  refine ⟨?_, rfl, rfl⟩
  intro s
  show '"' :: (pyReplaceChar '"' ['\\', '"']
      (pyReplaceChar '\\' ['\\', '\\'] s) ++ ['"']) = _
  rw [replace_backslash_then_quote]
  rfl

/-- The helper _xoauth2_string computes the base64 encoding of the UTF-8
bytes of user= plus the username, then U+0001, then auth=Bearer followed by
a space and the token, then two U+0001; at username u at x and token T it is
the expected base64 literal.  (This is only the helper's value, not what the
apply_imap path puts on the wire; see the next theorem.) -/
theorem xoauth2_string_contract :
    (∀ u t : List Char, _xoauth2_string u t = specXoauth2 u t) ∧
    _xoauth2_string "u@x".data "T".data =
      "dXNlcj11QHgBYXV0aD1CZWFyZXIgVAEB".data := by
  constructor
  · intro u t
    simp [_xoauth2_string, specXoauth2, List.append_assoc]
  · rfl

/-- C8: evaluating the sending path at the failing input (username u at x,
token T): the payload imaplib sends for apply_imap is the base64 encoding of
the ALREADY-base64 authentication string, which differs from the single
base64 encoding of the raw user=...U+0001 string that the claim prescribes;
the helper itself computes the prescribed single encoding, so the double
encoding is introduced by handing the encoded string to imaplib, which
encodes the callback's return once more. -/
theorem xoauth2_wire_payload_double_encoded :
    apply_imap_sent_payload "u@x".data "T".data =
      "ZFhObGNqMTFRSGdCWVhWMGFEMUNaV0Z5WlhJZ1ZBRUI=".data ∧
    _xoauth2_string "u@x".data "T".data =
      "dXNlcj11QHgBYXV0aD1CZWFyZXIgVAEB".data ∧
    apply_imap_sent_payload "u@x".data "T".data ≠
      _xoauth2_string "u@x".data "T".data := by
  refine ⟨rfl, rfl, ?_⟩
  decide

/-- C10: add_flags and remove_flags on an empty refs sequence return
normally, acquire no connection and issue no IMAP command. -/
theorem store_empty_refs_noop :
    ∀ flags : List String,
      add_flags [] flags = ⟨.ok (), [], false⟩ ∧
      remove_flags [] flags = ⟨.ok (), [], false⟩ := by
  intro flags
  exact ⟨rfl, rfl⟩

/-- C7: with two refs naming different mailboxes, add_flags and remove_flags
raise IMAPError before any network activity: no connection is acquired and no
IMAP command is issued. -/
theorem store_mixed_mailboxes_fails_before_network :
    ∀ (refs : List EmailRef) (flags : List String) (r1 r2 : EmailRef),
      r1 ∈ refs → r2 ∈ refs → r1.mailbox ≠ r2.mailbox →
      (∃ m1, (add_flags refs flags).result = .error (.imapError m1)) ∧
      (add_flags refs flags).cmds = [] ∧
      (add_flags refs flags).connAcquired = false ∧
      (∃ m2, (remove_flags refs flags).result = .error (.imapError m2)) ∧
      (remove_flags refs flags).cmds = [] ∧
      (remove_flags refs flags).connAcquired = false := by
  intro refs flags r1 r2 h1 h2 hne
  obtain ⟨r0, rest, rfl⟩ : ∃ r0 rest, refs = r0 :: rest := by
    cases refs with
    | nil => cases h1
    | cons a l => exact ⟨a, l, rfl⟩
  have hall : (r0 :: rest).all (fun r => r.mailbox == r0.mailbox) = false := by
    rw [List.all_eq_false]
    by_cases h : r1.mailbox = r0.mailbox
    · refine ⟨r2, h2, ?_⟩
      simp only [beq_iff_eq]
      intro hc
      exact hne (by rw [h, hc])
    · refine ⟨r1, h1, ?_⟩
      simpa using h
  have hassert : assert_same_mailbox (r0 :: rest) "_store" =
      .error (.imapError ("All EmailRef.mailbox must match for " ++ "_store")) := by
    simp [assert_same_mailbox, hall]
  have hstore : ∀ mode, _store (r0 :: rest) mode flags =
      ⟨.error (.imapError ("All EmailRef.mailbox must match for " ++ "_store")),
        [], false⟩ := by
    intro mode
    simp [_store, hassert]
  have ha : add_flags (r0 :: rest) flags =
      ⟨.error (.imapError ("All EmailRef.mailbox must match for " ++ "_store")),
        [], false⟩ := hstore "+FLAGS"
  have hr : remove_flags (r0 :: rest) flags =
      ⟨.error (.imapError ("All EmailRef.mailbox must match for " ++ "_store")),
        [], false⟩ := hstore "-FLAGS"
  rw [ha, hr]
  exact ⟨⟨_, rfl⟩, rfl, rfl, ⟨_, rfl⟩, rfl, rfl⟩

/-- Witness for C7 at the concrete refs of the spec's scenario. -/
theorem store_mixed_mailboxes_fails_before_network_witness :
    (EmailRef.mk 1 "A").mailbox ≠ (EmailRef.mk 2 "B").mailbox ∧
    (add_flags [EmailRef.mk 1 "A", EmailRef.mk 2 "B"] ["\\Seen"]).cmds = [] ∧
    (remove_flags [EmailRef.mk 1 "A", EmailRef.mk 2 "B"] ["\\Seen"]).cmds = [] := by
  have h := store_mixed_mailboxes_fails_before_network
    [EmailRef.mk 1 "A", EmailRef.mk 2 "B"] ["\\Seen"]
    (EmailRef.mk 1 "A") (EmailRef.mk 2 "B")
    (by simp) (by simp) (by decide)
  exact ⟨by decide, h.2.1, h.2.2.2.2.1⟩

/-! ## Date-parser soundness lemmas (towards C6) -/

/-- A digit character is not a dash. -/
theorem isDig_ne_dash (c : Char) (h : isDig c = true) : ¬ c = '-' := by
  intro hc
  subst hc
  exact absurd h (by decide)

/-- A 1-9 digit is a digit. -/
theorem dig19_isDig (c : Char) (h : dig19 c = true) : isDig c = true := by
  simp only [dig19, Bool.and_eq_true, decide_eq_true_eq] at h
  simp only [isDig, Bool.and_eq_true, decide_eq_true_eq]
  omega

/-- Value bounds for a 1-9 digit. -/
theorem dig19_val (c : Char) (h : dig19 c = true) : 1 ≤ dv c ∧ dv c ≤ 9 := by
  simp only [dig19, Bool.and_eq_true, decide_eq_true_eq] at h
  unfold dv
  omega

/-- Value bound for a digit. -/
theorem isDig_val (c : Char) (h : isDig c = true) : dv c ≤ 9 := by
  simp only [isDig, Bool.and_eq_true, decide_eq_true_eq] at h
  unfold dv
  omega

/-- The per-character decimal value never exceeds 9. -/
theorem udv_le9 (c : Char) : udv c ≤ 9 := by
  unfold udv
  cases hf : ndStarts.find? (fun s => s ≤ c.toNat && c.toNat ≤ s + 9) with
  | none => exact Nat.zero_le 9
  | some s =>
      have hp := List.find?_some hf
      simp only [Bool.and_eq_true, decide_eq_true_eq] at hp
      show c.toNat - s ≤ 9
      omega

/-- On ASCII digits the Unicode decimal value agrees with the ASCII value
(the ASCII run heads the table). -/
theorem udv_eq_dv (c : Char) (h : isDig c = true) : udv c = dv c := by
  simp only [isDig, Bool.and_eq_true, decide_eq_true_eq] at h
  unfold udv ndStarts
  rw [List.find?_cons_of_pos]
  · rfl
  · simp only [Bool.and_eq_true, decide_eq_true_eq]
    omega

/-- ASCII digits are Unicode digits. -/
theorem uniDigit_of_isDig (c : Char) (h : isDig c = true) :
    uniDigit c = true := by
  simp only [isDig, Bool.and_eq_true, decide_eq_true_eq] at h
  unfold uniDigit
  rw [List.any_eq_true]
  refine ⟨48, ?_, ?_⟩
  · unfold ndStarts
    exact List.mem_cons_self _ _
  · simp only [Bool.and_eq_true, decide_eq_true_eq]
    omega

/-- A Unicode digit is not a dash. -/
theorem uniDigit_ne_dash (c : Char) (h : uniDigit c = true) : ¬ c = '-' := by
  intro hc
  subst hc
  exact absurd h (by decide)

/-- A list of Unicode digits has no dash. -/
theorem all_uniDigit_no_dash (l : List Char) (h : l.all uniDigit = true) :
    ∀ c ∈ l, ¬ c = '-' := by
  intro c hc
  exact uniDigit_ne_dash c (by
    rw [List.all_eq_true] at h
    exact h c hc)

/-- digitsVal on a singleton. -/
theorem digitsVal_one (c : Char) : digitsVal [c] = udv c := by
  simp only [digitsVal, List.foldl_cons, List.foldl_nil]
  omega

/-- digitsVal on a pair. -/
theorem digitsVal_two (c1 c2 : Char) :
    digitsVal [c1, c2] = 10 * udv c1 + udv c2 := by
  simp only [digitsVal, List.foldl_cons, List.foldl_nil]
  omega

/-- digitsVal on four digits. -/
theorem digitsVal_four (a b c d : Char) :
    digitsVal [a, b, c, d] =
      1000 * udv a + 100 * udv b + 10 * udv c + udv d := by
  simp only [digitsVal, List.foldl_cons, List.foldl_nil]
  omega

/-- Soundness of the strptime year directive: it consumes exactly four
Unicode decimal digits whose int() value is the year. -/
theorem parseYear4_sound (l : List Char) (y : Nat) (r : List Char)
    (h : parseYear4 l = some (y, r)) :
    ∃ t, l = t ++ r ∧ t.all uniDigit = true ∧ t.length = 4 ∧
      digitsVal t = y := by
  match l with
  | [] => exact absurd h (by simp [parseYear4])
  | [a] => exact absurd h (by simp [parseYear4])
  | [a, b] => exact absurd h (by simp [parseYear4])
  | [a, b, c] => exact absurd h (by simp [parseYear4])
  | a :: b :: c :: d :: rest =>
      by_cases hd : (uniDigit a && uniDigit b && uniDigit c && uniDigit d) = true
      · rw [parseYear4, if_pos hd] at h
        simp only [Option.some.injEq, Prod.mk.injEq] at h
        obtain ⟨hy, hr⟩ := h
        simp only [Bool.and_eq_true] at hd
        refine ⟨[a, b, c, d], by simp [hr], ?_, rfl, ?_⟩
        · simp [List.all_cons, hd.1.1.1, hd.1.1.2, hd.1.2, hd.2]
        · rw [digitsVal_four, ← hy]
      · rw [parseYear4, if_neg hd] at h
        cases h

/-- Soundness of the strptime month directive: it consumes one or two digit
characters whose value is a month 1-12. -/
theorem parseMonth_sound (l : List Char) (m : Nat) (r : List Char)
    (h : parseMonth l = some (m, r)) :
    ∃ t, l = t ++ r ∧ t.all isDig = true ∧ 1 ≤ t.length ∧ t.length ≤ 2 ∧
      digitsVal t = m ∧ 1 ≤ m ∧ m ≤ 12 := by
  match l with
  | [] => exact absurd h (by simp [parseMonth])
  | [c1] =>
      by_cases h1 : dig19 c1 = true
      · rw [parseMonth, if_pos h1] at h
        simp only [Option.some.injEq, Prod.mk.injEq] at h
        obtain ⟨hm, hr⟩ := h
        obtain ⟨hlo, hhi⟩ := dig19_val c1 h1
        refine ⟨[c1], by simp [hr], by simp [dig19_isDig c1 h1], by simp,
          by simp, by rw [digitsVal_one, udv_eq_dv c1 (dig19_isDig c1 h1), hm],
          by omega, by omega⟩
      · rw [parseMonth, if_neg h1] at h
        cases h
  | c1 :: c2 :: rest =>
      by_cases h1 : (c1 = '1' && (48 ≤ c2.toNat && c2.toNat ≤ 50)) = true
      · rw [parseMonth, if_pos h1] at h
        simp only [Option.some.injEq, Prod.mk.injEq] at h
        obtain ⟨hm, hr⟩ := h
        simp only [Bool.and_eq_true, decide_eq_true_eq] at h1
        obtain ⟨hc1, hc2lo, hc2hi⟩ := h1
        subst hc1
        have hd2 : isDig c2 = true := by
          simp only [isDig, Bool.and_eq_true, decide_eq_true_eq]
          omega
        have hdv2 : dv c2 = c2.toNat - 48 := rfl
        have hu1 : udv '1' = 1 := rfl
        have hu2 : udv c2 = dv c2 := udv_eq_dv c2 hd2
        refine ⟨['1', c2], by simp [hr],
          by simp [List.all_cons, hd2, (by decide : isDig '1' = true)],
          by simp, by simp, ?_, by omega, by omega⟩
        rw [digitsVal_two, hu1, hu2, ← hm]
      · rw [parseMonth, if_neg h1] at h
        by_cases h2 : (c1 = '0' && dig19 c2) = true
        · rw [if_pos h2] at h
          simp only [Option.some.injEq, Prod.mk.injEq] at h
          obtain ⟨hm, hr⟩ := h
          simp only [Bool.and_eq_true, decide_eq_true_eq] at h2
          obtain ⟨hc1, hc2⟩ := h2
          subst hc1
          obtain ⟨hlo, hhi⟩ := dig19_val c2 hc2
          have hd2 := dig19_isDig c2 hc2
          have hu0 : udv '0' = 0 := rfl
          have hu2 : udv c2 = dv c2 := udv_eq_dv c2 hd2
          refine ⟨['0', c2], by simp [hr],
            by simp [List.all_cons, hd2, (by decide : isDig '0' = true)],
            by simp, by simp, ?_, by omega, by omega⟩
          rw [digitsVal_two, hu0, hu2, ← hm]
          omega
        · rw [if_neg h2] at h
          by_cases h3 : dig19 c1 = true
          · rw [if_pos h3] at h
            simp only [Option.some.injEq, Prod.mk.injEq] at h
            obtain ⟨hm, hr⟩ := h
            obtain ⟨hlo, hhi⟩ := dig19_val c1 h3
            refine ⟨[c1], by simp [hr], by simp [dig19_isDig c1 h3], by simp,
              by simp,
              by rw [digitsVal_one, udv_eq_dv c1 (dig19_isDig c1 h3), hm],
              by omega, by omega⟩
          · rw [if_neg h3] at h
            cases h

/-- Soundness of the strptime day directive: it consumes one of the accepted
digit shapes (single ASCII 1-9; two ASCII digits; ASCII 1 or 2 followed by
any Unicode decimal digit) whose int() value is a day 1-31. -/
theorem parseDay_sound (l : List Char) (d : Nat) (r : List Char)
    (h : parseDay l = some (d, r)) :
    ∃ t, l = t ++ r ∧ t.all uniDigit = true ∧ dayShape t = true ∧
      digitsVal t = d ∧ 1 ≤ d ∧ d ≤ 31 := by
  match l with
  | [] => exact absurd h (by simp [parseDay])
  | [c1] =>
      by_cases h1 : dig19 c1 = true
      · rw [parseDay, if_pos h1] at h
        simp only [Option.some.injEq, Prod.mk.injEq] at h
        obtain ⟨hm, hr⟩ := h
        obtain ⟨hlo, hhi⟩ := dig19_val c1 h1
        refine ⟨[c1], by simp [hr],
          by simp [uniDigit_of_isDig c1 (dig19_isDig c1 h1)],
          by simp [dayShape, h1],
          by rw [digitsVal_one, udv_eq_dv c1 (dig19_isDig c1 h1), hm],
          by omega, by omega⟩
      · rw [parseDay, if_neg h1] at h
        cases h
  | c1 :: c2 :: rest =>
      by_cases h1 : (c1 = '3' && (c2 = '0' || c2 = '1')) = true
      · rw [parseDay, if_pos h1] at h
        simp only [Option.some.injEq, Prod.mk.injEq] at h
        obtain ⟨hm, hr⟩ := h
        simp only [Bool.and_eq_true, Bool.or_eq_true, decide_eq_true_eq] at h1
        obtain ⟨hc1, hc2⟩ := h1
        subst hc1
        have hd2 : isDig c2 = true := by
          rcases hc2 with hc2 | hc2 <;> subst hc2 <;> decide
        have hv2 : dv c2 ≤ 1 := by
          rcases hc2 with hc2 | hc2 <;> subst hc2 <;> decide
        have hu3 : udv '3' = 3 := rfl
        have hu2 : udv c2 = dv c2 := udv_eq_dv c2 hd2
        refine ⟨['3', c2], by simp [hr],
          by simp [uniDigit_of_isDig c2 hd2,
            (by decide : uniDigit '3' = true)],
          by simp [dayShape, hd2, (by decide : isDig '3' = true)],
          ?_, by omega, by omega⟩
        rw [digitsVal_two, hu3, hu2, ← hm]
      · rw [parseDay, if_neg h1] at h
        by_cases h2 : ((c1 = '1' || c1 = '2') && uniDigit c2) = true
        · rw [if_pos h2] at h
          simp only [Option.some.injEq, Prod.mk.injEq] at h
          obtain ⟨hm, hr⟩ := h
          simp only [Bool.and_eq_true, Bool.or_eq_true, decide_eq_true_eq] at h2
          obtain ⟨hc1, hc2⟩ := h2
          have hu1 : uniDigit c1 = true := by
            rcases hc1 with hc1 | hc1 <;> subst hc1 <;> decide
          have hv1 : 1 ≤ dv c1 ∧ dv c1 ≤ 2 := by
            rcases hc1 with hc1 | hc1 <;> subst hc1 <;>
              exact ⟨by decide, by decide⟩
          have hv2 := udv_le9 c2
          have hu1' : udv c1 = dv c1 := by
            rcases hc1 with hc1 | hc1 <;> subst hc1 <;> rfl
          have hshape : dayShape [c1, c2] = true := by
            rcases hc1 with hc1 | hc1 <;> subst hc1 <;> simp [dayShape, hc2]
          refine ⟨[c1, c2], by simp [hr], by simp [hu1, hc2], hshape,
            ?_, by omega, by omega⟩
          rw [digitsVal_two, hu1', ← hm]
        · rw [if_neg h2] at h
          by_cases h3 : (c1 = '0' && dig19 c2) = true
          · rw [if_pos h3] at h
            simp only [Option.some.injEq, Prod.mk.injEq] at h
            obtain ⟨hm, hr⟩ := h
            simp only [Bool.and_eq_true, decide_eq_true_eq] at h3
            obtain ⟨hc1, hc2⟩ := h3
            subst hc1
            obtain ⟨hlo, hhi⟩ := dig19_val c2 hc2
            have hd2 := dig19_isDig c2 hc2
            have hu0 : udv '0' = 0 := rfl
            have hu2 : udv c2 = dv c2 := udv_eq_dv c2 hd2
            refine ⟨['0', c2], by simp [hr],
              by simp [uniDigit_of_isDig c2 hd2,
                (by decide : uniDigit '0' = true)],
              by simp [dayShape, hd2, (by decide : isDig '0' = true)],
              ?_, by omega, by omega⟩
            rw [digitsVal_two, hu0, hu2, ← hm]
            omega
          · rw [if_neg h3] at h
            by_cases h4 : dig19 c1 = true
            · rw [if_pos h4] at h
              simp only [Option.some.injEq, Prod.mk.injEq] at h
              obtain ⟨hm, hr⟩ := h
              obtain ⟨hlo, hhi⟩ := dig19_val c1 h4
              refine ⟨[c1], by simp [hr],
                by simp [uniDigit_of_isDig c1 (dig19_isDig c1 h4)],
                by simp [dayShape, h4],
                by rw [digitsVal_one, udv_eq_dv c1 (dig19_isDig c1 h4), hm],
                by omega, by omega⟩
            · rw [if_neg h4] at h
              cases h

/-- splitDash of a dash-free list is one group. -/
theorem splitDash_no_dash (l : List Char) (h : ∀ c ∈ l, ¬ c = '-') :
    splitDash l = [l] := by
  induction l with
  | nil => rfl
  | cons c cs ih =>
      have hc : ¬ c = '-' := h c (by simp)
      have ih' := ih (fun x hx => h x (by simp [hx]))
      simp [splitDash, hc, ih']

/-- Prepending a dash-free group extends the first group of a split. -/
theorem splitDash_append (xs l : List Char) (hx : ∀ c ∈ xs, ¬ c = '-') :
    ∀ g gs, splitDash l = g :: gs → splitDash (xs ++ l) = (xs ++ g) :: gs := by
  induction xs with
  | nil =>
      intro g gs h
      simpa using h
  | cons c cs ih =>
      intro g gs h
      have hc : ¬ c = '-' := hx c (by simp)
      have step := ih (fun x hxm => hx x (by simp [hxm])) g gs h
      simp [splitDash, hc, step]

/-- A list whose members are all digits has no dash. -/
theorem all_isDig_no_dash (l : List Char) (h : l.all isDig = true) :
    ∀ c ∈ l, ¬ c = '-' := by
  intro c hc
  exact isDig_ne_dash c (by
    rw [List.all_eq_true] at h
    exact h c hc)

/-- When strptime succeeds and the parsed triple passes the datetime range
checks, the input was a valid loose year-month-day date. -/
theorem strptime_ok_loose (s : List Char) (y m d : Nat)
    (hp : strptimeYMD s = some (y, m, d))
    (h1 : 1 ≤ y) (h2 : 1 ≤ d) (h3 : d ≤ daysInMonth y m) :
    isLooseISODate s = true := by
  unfold strptimeYMD at hp
  split at hp
  · cases hp
  · rename_i yv r1 hy
    split at hp
    · cases hp
    · rename_i c1 r2
      split at hp
      case isFalse => cases hp
      case isTrue hc1 =>
        split at hp
        · cases hp
        · rename_i mv r3 hm
          split at hp
          · cases hp
          · rename_i c2 r4
            split at hp
            case isFalse => cases hp
            case isTrue hc2 =>
              split at hp
              · cases hp
              · rename_i dval r5 hd
                split at hp
                case h_2 => cases hp
                case h_1 =>
                  simp only [Option.some.injEq, Prod.mk.injEq] at hp
                  obtain ⟨hyv, hmv0, hdv0⟩ := hp
                  subst hyv
                  subst hmv0
                  subst hdv0
                  subst hc1
                  subst hc2
                  obtain ⟨ty, hys, hyd, hyl, hyv⟩ :=
                    parseYear4_sound s _ _ hy
                  obtain ⟨tm, hms, hmd, hml1, hml2, hmv, hm1, hm12⟩ :=
                    parseMonth_sound r2 _ _ hm
                  obtain ⟨td, hds, hdd, hdsh, hdv, hd1, hd31⟩ :=
                    parseDay_sound r4 _ _ hd
                  rw [List.append_nil] at hds
                  subst hds
                  subst hms
                  subst hys
                  have hin : splitDash r4 = [r4] :=
                    splitDash_no_dash r4 (all_uniDigit_no_dash r4 hdd)
                  have hmid : splitDash (tm ++ '-' :: r4) = [tm, r4] := by
                    have hstep : splitDash ('-' :: r4) = [] :: splitDash r4 := by
                      simp [splitDash]
                    rw [hin] at hstep
                    have := splitDash_append tm ('-' :: r4)
                      (all_isDig_no_dash tm hmd) [] [r4] hstep
                    simpa using this
                  have hsplit :
                      splitDash (ty ++ '-' :: (tm ++ '-' :: r4)) =
                        [ty, tm, r4] := by
                    have hstep : splitDash ('-' :: (tm ++ '-' :: r4)) =
                        [] :: splitDash (tm ++ '-' :: r4) := by
                      simp [splitDash]
                    rw [hmid] at hstep
                    have := splitDash_append ty ('-' :: (tm ++ '-' :: r4))
                      (all_uniDigit_no_dash ty hyd) [] [tm, r4] hstep
                    simpa using this
                  unfold isLooseISODate
                  rw [hsplit]
                  simp only [Bool.and_eq_true, decide_eq_true_eq]
                  refine ⟨⟨⟨⟨⟨⟨⟨⟨⟨⟨hyl, hyd⟩, hml1⟩, hml2⟩, hmd⟩,
                    hdsh⟩, ?_⟩, ?_⟩, ?_⟩, ?_⟩, ?_⟩
                  · rw [hyv]; omega
                  · rw [hmv]; exact hm1
                  · rw [hmv]; exact hm12
                  · rw [hdv]; exact h2
                  · rw [hdv, hyv, hmv]; exact h3

/-- C6 counterexample: the input 2024-1-2 is not in strict YYYY-MM-DD form,
yet the date renderer accepts it (CPython strptime month and day directives
also match unpadded digits), so the claim that every non-YYYY-MM-DD input
raises ValueError is false. -/
theorem imap_date_unpadded_accepted :
    isStrictISODate "2024-1-2".data = false ∧
    _imap_date "2024-1-2".data = .ok "02-Jan-2024".data := ⟨rfl, rfl⟩

/-- C6 (amended): the date renderer maps 2024-01-02 to 02-Jan-2024, and
raises ValueError for every input that is not a valid calendar date in loose
year-month-day form (four-digit year, one- or two-digit month and day,
month and day not necessarily zero-padded). -/
theorem imap_date_contract :
    _imap_date "2024-01-02".data = .ok "02-Jan-2024".data ∧
    ∀ s : List Char, isLooseISODate s = false →
      ∃ msg, _imap_date s = .error (.valueError msg) := by
  refine ⟨rfl, ?_⟩
  intro s hbad
  unfold _imap_date
  cases hp : strptimeYMD s with
  | none => exact ⟨_, rfl⟩
  | some v =>
      obtain ⟨y, m, d⟩ := v
      by_cases hv : (1 ≤ y && 1 ≤ d && d ≤ daysInMonth y m) = true
      · exfalso
        simp only [Bool.and_eq_true, decide_eq_true_eq] at hv
        have := strptime_ok_loose s y m d hp hv.1.1 hv.1.2 hv.2
        rw [this] at hbad
        cases hbad
      · exact ⟨"day is out of range for month", by simp [hv]⟩

/-- Witness for C6 at the invalid input 2024-13-01. -/
theorem imap_date_contract_witness :
    isLooseISODate "2024-13-01".data = false ∧
    ∃ msg, _imap_date "2024-13-01".data = .error (.valueError msg) :=
  ⟨rfl, imap_date_contract.2 "2024-13-01".data rfl⟩

/-! ## Accumulator and window lemmas (towards C1, C2, C3) -/

/-- dedupAppend preserves the no-duplicates invariant. -/
theorem dedupAppend_nodup (uids : List Nat) :
    ∀ acc : List Nat, acc.Nodup → (dedupAppend acc uids).Nodup := by
  induction uids with
  | nil =>
      intro acc h
      exact h
  | cons u us ih =>
      intro acc h
      simp only [dedupAppend, List.foldl_cons]
      by_cases hu : u ∈ acc
      · rw [if_pos hu]
        exact ih acc h
      · rw [if_neg hu]
        refine ih (acc ++ [u]) ?_
        simp [List.nodup_append, h, hu]

/-- Every member of dedupAppend comes from the accumulator or the new UIDs. -/
theorem dedupAppend_mem (uids : List Nat) :
    ∀ acc u, u ∈ dedupAppend acc uids → u ∈ acc ∨ u ∈ uids := by
  induction uids with
  | nil =>
      intro acc u h
      exact .inl h
  | cons v vs ih =>
      intro acc u h
      simp only [dedupAppend, List.foldl_cons] at h
      by_cases hv : v ∈ acc
      · rw [if_pos hv] at h
        rcases ih acc u h with h' | h'
        · exact .inl h'
        · exact .inr (by simp [h'])
      · rw [if_neg hv] at h
        rcases ih (acc ++ [v]) u h with h' | h'
        · rcases List.mem_append.mp h' with h'' | h''
          · exact .inl h''
          · simp only [List.mem_singleton] at h''
            exact .inr (by simp [h''])
        · exact .inr (by simp [h'])

/-- A weakly sorted list without duplicates is strictly sorted. -/
theorem pairwise_lt_of_le_nodup (l : List Nat)
    (h1 : l.Pairwise (· ≤ ·)) (h2 : l.Nodup) : l.Pairwise (· < ·) :=
  (h1.and h2).imp (fun h => lt_of_le_of_ne h.1 h.2)

/-- Sorting the deduplicated accumulator yields a strictly ascending list. -/
theorem sortDedup_pairwise (uids acc : List Nat) (h : acc.Pairwise (· < ·)) :
    (List.insertionSort (· ≤ ·) (dedupAppend acc uids)).Pairwise (· < ·) := by
  have hnd : (dedupAppend acc uids).Nodup :=
    dedupAppend_nodup uids acc (h.imp ne_of_lt)
  have hsor := List.sorted_insertionSort (· ≤ ·) (dedupAppend acc uids)
  have hnd2 : (List.insertionSort (· ≤ ·) (dedupAppend acc uids)).Nodup :=
    (List.perm_insertionSort (· ≤ ·) (dedupAppend acc uids)).nodup_iff.mpr hnd
  exact pairwise_lt_of_le_nodup _ hsor hnd2

/-- Membership in the sorted deduplicated accumulator. -/
theorem sortDedup_mem (uids acc : List Nat) (u : Nat)
    (h : u ∈ List.insertionSort (· ≤ ·) (dedupAppend acc uids)) :
    u ∈ acc ∨ u ∈ uids :=
  dedupAppend_mem uids acc u
    ((List.perm_insertionSort (· ≤ ·) (dedupAppend acc uids)).mem_iff.mp h)

/-- Members of a window search lie inside the window. -/
theorem searchWindow_mem (M : Mailbox) (w : _UIDWindow) (u : Nat)
    (h : u ∈ searchWindow M w) : w.start ≤ u ∧ u ≤ w.stop := by
  unfold searchWindow at h
  have h' := (List.mem_filter.mp h).1
  rw [List.mem_range'] at h'
  obtain ⟨i, hi, rfl⟩ := h'
  omega

/-- The round loop keeps the accumulator strictly ascending. -/
theorem progLoop_acc_sorted (K : SearchKnobs) (M : Mailbox) (base : Nat)
    (after : Option Nat) (newest want : Nat) :
    ∀ (fuel : Nat) (s : ProgState), s.acc.Pairwise (· < ·) →
      (progLoop K M base after newest want fuel s).2.2.Pairwise (· < ·) := by
  intro fuel
  induction fuel with
  | zero =>
      intro s h
      simpa [progLoop] using h
  | succ n ih =>
      intro s h
      simp only [progLoop]
      split
      · exact h
      · split
        · exact sortDedup_pairwise _ _ h
        · split
          · exact sortDedup_pairwise _ _ h
          · split
            · split
              · exact sortDedup_pairwise _ _ h
              · exact ih _ (sortDedup_pairwise _ _ h)
            · split
              · exact sortDedup_pairwise _ _ h
              · exact ih _ (sortDedup_pairwise _ _ h)

/-- UIDs returned by _search_in_window lie inside the searched window. -/
theorem search_in_window_uids_mem (M : Mailbox) (σ : Store) (base : Nat)
    (w : _UIDWindow) (u : Nat) (h : u ∈ (_search_in_window M σ base w).2.2) :
    w.start ≤ u ∧ u ≤ w.stop := by
  simp only [_search_in_window] at h
  split at h
  · cases h
  · exact searchWindow_mem M w u h

/-- The round loop only accumulates positive UIDs (window starts never drop
below 1). -/
theorem progLoop_acc_pos (K : SearchKnobs) (M : Mailbox) (base : Nat)
    (after : Option Nat) (newest want : Nat) :
    ∀ (fuel : Nat) (s : ProgState), 1 ≤ s.win.start →
      (∀ u ∈ s.acc, 1 ≤ u) →
      ∀ u ∈ (progLoop K M base after newest want fuel s).2.2, 1 ≤ u := by
  intro fuel
  induction fuel with
  | zero =>
      intro s hw h
      simpa [progLoop] using h
  | succ n ih =>
      intro s hw h
      have hnew : ∀ u ∈ List.insertionSort (· ≤ ·)
          (dedupAppend s.acc (_search_in_window M s.store base s.win).2.2),
          1 ≤ u := by
        intro u hu
        rcases sortDedup_mem _ _ u hu with h' | h'
        · exact h u h'
        · exact le_trans hw (search_in_window_uids_mem M s.store base s.win u h').1
      simp only [progLoop]
      split
      · exact h
      · split
        · exact hnew
        · split
          · exact hnew
          · split
            · split
              · exact hnew
              · refine ih _ ?_ hnew
                show 1 ≤ s.win.stop + 1
                omega
            · split
              · exact hnew
              · refine ih _ ?_ hnew
                exact le_max_left 1 _

/-- In the backward direction (no after anchor), the round loop never
accumulates a UID at or above the bound that dominates the current window. -/
theorem progLoop_acc_lt (K : SearchKnobs) (M : Mailbox) (base : Nat)
    (newest want B : Nat) :
    ∀ (fuel : Nat) (s : ProgState), s.win.stop < B →
      (∀ u ∈ s.acc, u < B) →
      ∀ u ∈ (progLoop K M base none newest want fuel s).2.2, u < B := by
  intro fuel
  induction fuel with
  | zero =>
      intro s hw h
      simpa [progLoop] using h
  | succ n ih =>
      intro s hw h
      have hnew : ∀ u ∈ List.insertionSort (· ≤ ·)
          (dedupAppend s.acc (_search_in_window M s.store base s.win).2.2),
          u < B := by
        intro u hu
        rcases sortDedup_mem _ _ u hu with h' | h'
        · exact h u h'
        · have := (search_in_window_uids_mem M s.store base s.win u h').2
          omega
      simp only [progLoop]
      split
      · exact h
      · rename_i hne
        split
        · exact hnew
        · split
          · exact hnew
          · split
            · exact hnew
            · refine ih _ ?_ hnew
              show s.win.start - 1 < B
              simp only [not_lt] at hne
              omega

/-- _search_in_window leaves every pre-existing store cell untouched (it
clones the base query into a fresh cell and mutates only the clone) and never
shrinks the store. -/
theorem search_in_window_store (M : Mailbox) (σ : Store) (base : Nat)
    (w : _UIDWindow) :
    (∀ i, i < σ.length → (_search_in_window M σ base w).1[i]? = σ[i]?) ∧
    σ.length ≤ (_search_in_window M σ base w).1.length := by
  constructor
  · intro i hi
    simp only [_search_in_window, _clone_query, uidMethod]
    split
    · exact List.getElem?_append_left hi
    · rw [List.getElem?_set_ne (by omega)]
      exact List.getElem?_append_left hi
  · simp only [_search_in_window, _clone_query, uidMethod]
    split
    · simp
    · simp

/-- The round loop leaves every store cell that existed at entry untouched
and never shrinks the store. -/
theorem progLoop_store (K : SearchKnobs) (M : Mailbox) (base : Nat)
    (after : Option Nat) (newest want : Nat) :
    ∀ (fuel : Nat) (s : ProgState),
      (∀ i, i < s.store.length →
        (progLoop K M base after newest want fuel s).1[i]? = s.store[i]?) ∧
      s.store.length ≤ (progLoop K M base after newest want fuel s).1.length := by
  intro fuel
  induction fuel with
  | zero =>
      intro s
      exact ⟨fun i _ => rfl, le_refl _⟩
  | succ n ih =>
      intro s
      have hw := search_in_window_store M s.store base s.win
      simp only [progLoop]
      split
      · exact ⟨fun i _ => rfl, le_refl _⟩
      · split
        · exact hw
        · split
          · exact hw
          · split
            · split
              · exact hw
              · refine ⟨fun i hi => ?_, ?_⟩
                · rw [(ih _).1 i (lt_of_lt_of_le hi hw.2)]
                  exact hw.1 i hi
                · exact le_trans hw.2
                    (ih ⟨(_search_in_window M s.store base s.win).1,
                      _, _, _, _, _, _⟩).2
            · split
              · exact hw
              · refine ⟨fun i hi => ?_, ?_⟩
                · rw [(ih _).1 i (lt_of_lt_of_le hi hw.2)]
                  exact hw.1 i hi
                · exact le_trans hw.2
                    (ih ⟨(_search_in_window M s.store base s.win).1,
                      _, _, _, _, _, _⟩).2

/-- Every window built by _make_window starts at UID 1 or above. -/
theorem make_window_start_pos (uidnext : Nat) (before after : Option Nat)
    (W : Nat) (win : _UIDWindow)
    (h : _make_window uidnext before after W = .ok win) : 1 ≤ win.start := by
  unfold _make_window at h
  cases before with
  | some b =>
      cases after with
      | some a => cases h
      | none =>
          cases h
          exact le_max_left 1 _
  | none =>
      cases after with
      | some a =>
          cases h
          show 1 ≤ a + 1
          omega
      | none =>
          cases h
          exact le_max_left 1 _

/-- The truncated accumulator is a sublist of the accumulator. -/
theorem pyTailSlice_sublist (l : List Nat) (k : Nat) :
    List.Sublist (pyTailSlice l k) l := by
  unfold pyTailSlice
  split
  · exact List.Sublist.refl l
  · exact List.drop_sublist _ l

/-- The conditional tail truncation of the accumulator is a sublist. -/
theorem truncSublist (l : List Nat) (k : Nat) :
    List.Sublist (if k < l.length then pyTailSlice l k else l) l := by
  split
  · exact pyTailSlice_sublist _ _
  · exact List.Sublist.refl _

/-- Inversion of a successful _search_progressive: the returned UID list is
strictly ascending with positive members, and the store is only extended,
with every pre-existing cell untouched. -/
theorem search_progressive_inv (K : SearchKnobs) (M : Mailbox) (σ : Store)
    (base : Nat) (P : Nat) (before after : Option Nat)
    (σ' : Store) (cr : String) (uids : List Nat)
    (h : _search_progressive K M σ base P before after = .ok (σ', cr, uids)) :
    uids.Pairwise (· < ·) ∧
    (∀ u ∈ uids, 1 ≤ u) ∧
    (∀ i, i < σ.length → σ'[i]? = σ[i]?) ∧
    σ.length ≤ σ'.length := by
  unfold _search_progressive at h
  split at h
  · cases h
  · rename_i win hmw
    simp only [Except.ok.injEq, Prod.mk.injEq] at h
    obtain ⟨hσ, hcr, huids⟩ := h
    subst hσ
    subst hcr
    subst huids
    have hsorted := progLoop_acc_sorted K M base after
      (max 1 (M.uidnext - 1)) (max 1 (P * K.search_window_factor))
      K.search_max_rounds
      ⟨σ, win, [], max 1 (P * K.search_window_factor),
        if win.start ≤ win.stop then some win.start else none,
        if win.start ≤ win.stop then some win.stop else none,
        orALL (buildQuery (σ.getD base []))⟩ List.Pairwise.nil
    have hpos := progLoop_acc_pos K M base after
      (max 1 (M.uidnext - 1)) (max 1 (P * K.search_window_factor))
      K.search_max_rounds
      ⟨σ, win, [], max 1 (P * K.search_window_factor),
        if win.start ≤ win.stop then some win.start else none,
        if win.start ≤ win.stop then some win.stop else none,
        orALL (buildQuery (σ.getD base []))⟩
      (make_window_start_pos M.uidnext before after _ win hmw)
      (by intro u hu; cases hu)
    have hstore := progLoop_store K M base after
      (max 1 (M.uidnext - 1)) (max 1 (P * K.search_window_factor))
      K.search_max_rounds
      ⟨σ, win, [], max 1 (P * K.search_window_factor),
        if win.start ≤ win.stop then some win.start else none,
        if win.start ≤ win.stop then some win.stop else none,
        orALL (buildQuery (σ.getD base []))⟩
    have hsub := truncSublist
      (progLoop K M base after (max 1 (M.uidnext - 1))
        (max 1 (P * K.search_window_factor)) K.search_max_rounds
        ⟨σ, win, [], max 1 (P * K.search_window_factor),
          if win.start ≤ win.stop then some win.start else none,
          if win.start ≤ win.stop then some win.stop else none,
          orALL (buildQuery (σ.getD base []))⟩).2.2 K.max_uids_per_key
    refine ⟨List.Pairwise.sublist hsub hsorted, ?_, hstore.1, hstore.2⟩
    intro u hu
    exact hpos u (hsub.subset hu)

/-- With a before anchor of at least 2, every UID returned by the
progressive search is strictly below the anchor: the first window tops out
at the anchor minus one, and each following backward window tops out
strictly below its predecessor's start. -/
theorem search_progressive_lt (K : SearchKnobs) (M : Mailbox) (σ : Store)
    (base P B : Nat) (σ' : Store) (cr : String) (uids : List Nat) (hB : 2 ≤ B)
    (h : _search_progressive K M σ base P (some B) none = .ok (σ', cr, uids)) :
    ∀ u ∈ uids, u < B := by
  unfold _search_progressive at h
  split at h
  · cases h
  · rename_i win hmw
    have hstop : win.stop < B := by
      simp only [_make_window] at hmw
      cases hmw
      show max 1 (B - 1) < B
      omega
    simp only [Except.ok.injEq, Prod.mk.injEq] at h
    obtain ⟨hσ, hcr, huids⟩ := h
    subst huids
    have hlt := progLoop_acc_lt K M base (max 1 (M.uidnext - 1))
      (max 1 (P * K.search_window_factor)) B K.search_max_rounds
      ⟨σ, win, [], max 1 (P * K.search_window_factor),
        if win.start ≤ win.stop then some win.start else none,
        if win.start ≤ win.stop then some win.stop else none,
        orALL (buildQuery (σ.getD base []))⟩ hstop
      (by intro u hu; cases hu)
    have hsub := truncSublist
      (progLoop K M base none (max 1 (M.uidnext - 1))
        (max 1 (P * K.search_window_factor)) K.search_max_rounds
        ⟨σ, win, [], max 1 (P * K.search_window_factor),
          if win.start ≤ win.stop then some win.start else none,
          if win.start ≤ win.stop then some win.stop else none,
          orALL (buildQuery (σ.getD base []))⟩).2.2 K.max_uids_per_key
    intro u hu
    exact hlt u (hsub.subset hu)

/-! ## Page-assembly lemmas (towards C1, C3) -/

/-- Projecting the uid back out of the refs constructed for a page recovers
the UID list. -/
theorem map_mk_uid (mailbox : String) (l : List Nat) :
    (l.map (fun u => EmailRef.mk u mailbox)).map EmailRef.uid = l := by
  induction l with
  | nil => rfl
  | cons x xs ih => simp [ih]

/-- The refs of a non-empty page are newest-first: their UIDs are strictly
decreasing whenever the ascending page slice is strictly increasing. -/
theorem refs_pairwise (mailbox : String) (l : List Nat)
    (h : l.Pairwise (· < ·)) :
    ((l.reverse.map (fun u => EmailRef.mk u mailbox)).map
      EmailRef.uid).Pairwise (· > ·) := by
  rw [map_mk_uid]
  exact List.pairwise_reverse.mpr h

/-- The last ref of a non-empty page carries the smallest (first) UID of the
ascending page slice. -/
theorem refs_getLast (mailbox : String) (x : Nat) (l : List Nat) :
    (((x :: l).reverse.map (fun u => EmailRef.mk u mailbox)).getLast?).map
      EmailRef.uid = some x := by
  rw [List.getLast?_map, List.getLast?_reverse]
  rfl

/-- The head of the ascending page slice bounds every UID on the page from
below. -/
theorem refs_min (mailbox : String) (x : Nat) (l : List Nat)
    (h : (x :: l).Pairwise (· < ·)) :
    ∀ v ∈ ((x :: l).reverse.map (fun u => EmailRef.mk u mailbox)).map
      EmailRef.uid, x ≤ v := by
  rw [map_mk_uid]
  intro v hv
  rw [List.mem_reverse] at hv
  rcases List.mem_cons.mp hv with h' | h'
  · omega
  · have := (List.pairwise_cons.mp h).1 v h'
    omega

/-- Invariants of the assembled page, given a strictly ascending accumulator
of positive UIDs: the refs are strictly decreasing by UID; when has_next is
set the last ref's UID is the next_before_uid anchor; and a page that fills
the requested (positive) page size has a last ref carrying the page minimum,
which is the next_before_uid anchor unless that minimum is UID 1 and the
accumulator held nothing beyond the page. -/
theorem assemblePage_inv (mailbox : String) (P : Nat) (before after : Option Nat)
    (uids : List Nat) (hs : uids.Pairwise (· < ·)) :
    ((assemblePage mailbox P before after uids).refs.map
      EmailRef.uid).Pairwise (· > ·) ∧
    ((assemblePage mailbox P before after uids).has_next = true →
      ((assemblePage mailbox P before after uids).refs.getLast?).map
        EmailRef.uid = (assemblePage mailbox P before after uids).next_before_uid) ∧
    ((assemblePage mailbox P before after uids).refs.length = P → 1 ≤ P →
      ∃ u, (((assemblePage mailbox P before after uids).refs.getLast?).map
          EmailRef.uid = some u) ∧
        (∀ v ∈ (assemblePage mailbox P before after uids).refs.map
          EmailRef.uid, u ≤ v) ∧
        ((assemblePage mailbox P before after uids).next_before_uid =
          if before.isSome = false ∧ after.isSome = true then some u
          else if (assemblePage mailbox P before after uids).refs.length <
              (assemblePage mailbox P before after uids).total ∨ 1 < u
            then some u else none)) := by
  simp only [assemblePage]
  split
  · refine ⟨List.Pairwise.nil, fun hb => Bool.noConfusion hb, ?_⟩
    intro hlen hP
    exfalso
    simp only [List.length_nil] at hlen
    omega
  · generalize hpa : (if before.isSome then pyTailSlice uids P
      else if after.isSome then uids.take P
      else pyTailSlice uids P) = pa
    have hsub : List.Sublist pa uids := by
      rw [← hpa]
      split
      · exact pyTailSlice_sublist _ _
      · split
        · exact List.take_sublist _ _
        · exact pyTailSlice_sublist _ _
    have hps : pa.Pairwise (· < ·) := List.Pairwise.sublist hsub hs
    cases pa with
    | nil =>
        refine ⟨List.Pairwise.nil, fun hb => Bool.noConfusion hb, ?_⟩
        intro hlen hP
        exfalso
        simp only [List.length_nil] at hlen
        omega
    | cons oldest tail =>
        dsimp only
        refine ⟨refs_pairwise mailbox (oldest :: tail) hps, ?_, ?_⟩
        · intro hb
          rw [refs_getLast]
          rw [show (if before.isSome then
                decide ((oldest :: tail).length < uids.length) ||
                  decide (1 < oldest)
              else if after.isSome then true
              else decide ((oldest :: tail).length < uids.length) ||
                decide (1 < oldest)) = true from hb]
          rfl
        · intro hlen hP
          refine ⟨oldest, refs_getLast mailbox oldest tail,
            refs_min mailbox oldest tail hps, ?_⟩
          rcases hbo : before.isSome with _ | _ <;>
            rcases hao : after.isSome with _ | _ <;>
              simp [hbo, hao]

/-- C3: for every PagedSearchResult returned by search_page, the UIDs of refs
are strictly decreasing (newest-first, no duplicates), and whenever has_next
is true the UID of the last element of refs equals next_before_uid. -/
theorem search_page_ordering (K : SearchKnobs) (M : Mailbox) (σ : Store)
    (base : Nat) (mailbox : String) (P : Nat) (before after : Option Nat)
    (σ' : Store) (page : PagedSearchResult)
    (h : search_page K M σ base mailbox P before after = .ok (σ', page)) :
    ((page.refs.map EmailRef.uid).Pairwise (· > ·)) ∧
    (page.has_next = true →
      (page.refs.getLast?).map EmailRef.uid = page.next_before_uid) := by
  unfold search_page at h
  split at h
  · cases h
  · split at h
    · cases h
    · rename_i σ1 cr uids hprog
      simp only [Except.ok.injEq, Prod.mk.injEq] at h
      obtain ⟨hσ, hpage⟩ := h
      subst hpage
      obtain ⟨hsp, -, -, -⟩ :=
        search_progressive_inv K M σ base P before after _ _ _ hprog
      obtain ⟨h1, h2, -⟩ := assemblePage_inv mailbox P before after uids hsp
      exact ⟨h1, h2⟩

/-- Witness for C3 at a concrete two-message mailbox and page size 1. -/
theorem search_page_ordering_witness :
    (([EmailRef.mk 2 "INBOX"].map EmailRef.uid).Pairwise (· > ·)) ∧
    (([EmailRef.mk 2 "INBOX"].getLast?).map EmailRef.uid = some 2) := by
  have h := search_page_ordering {}
    ⟨3, fun u => decide (1 ≤ u) && decide (u ≤ 2)⟩ [[]] 0 "INBOX" 1 none none
    [[], ["UID", "1:2"]]
    ⟨[EmailRef.mk 2 "INBOX"], some 2, none, some 2, some 2, 2, true, false⟩
    rfl
  exact ⟨h.1, h.2 rfl⟩

/-- C1 counterexample: a mailbox holding exactly UIDs 1..10, all matching,
paged with page_size 10 and no anchor, yields a full page
(len refs = page_size) whose next_before_uid is None, because the page
bottoms out at UID 1 with no surplus in the accumulator. -/
theorem search_page_full_page_counterexample :
    Except.map (fun r => (r.2.refs.length, r.2.next_before_uid, r.2.has_next))
      (search_page {} ⟨11, fun u => decide (1 ≤ u) && decide (u ≤ 10)⟩ [[]] 0
        "INBOX" 10 none none) = .ok (10, none, false) := rfl

/-- C1 (amended): every search_page result whose refs fill the (positive)
page size has a last ref carrying the smallest UID u on the page; for an
after_uid-anchored page next_before_uid is always u, and otherwise
next_before_uid is u exactly when surplus UIDs beyond the page were
accumulated (len refs < total) or u exceeds 1, and is None in the remaining
case (the page bottoms out at UID 1 with no surplus). -/
theorem search_page_full_page_anchor (K : SearchKnobs) (M : Mailbox)
    (σ : Store) (base : Nat) (mailbox : String) (P : Nat)
    (before after : Option Nat) (σ' : Store) (page : PagedSearchResult)
    (h : search_page K M σ base mailbox P before after = .ok (σ', page))
    (hlen : page.refs.length = P) (hP : 1 ≤ P) :
    ∃ u, ((page.refs.getLast?).map EmailRef.uid = some u) ∧
      (∀ v ∈ page.refs.map EmailRef.uid, u ≤ v) ∧
      (page.next_before_uid =
        if before.isSome = false ∧ after.isSome = true then some u
        else if page.refs.length < page.total ∨ 1 < u
          then some u else none) := by
  unfold search_page at h
  split at h
  · cases h
  · split at h
    · cases h
    · rename_i σ1 cr uids hprog
      simp only [Except.ok.injEq, Prod.mk.injEq] at h
      obtain ⟨hσ, hpage⟩ := h
      subst hpage
      obtain ⟨hsp, -, -, -⟩ :=
        search_progressive_inv K M σ base P before after _ _ _ hprog
      obtain ⟨-, -, h3⟩ := assemblePage_inv mailbox P before after uids hsp
      exact h3 hlen hP

/-- Witness for C1 (amended) at a concrete two-message mailbox, page size 1. -/
theorem search_page_full_page_anchor_witness :
    (([EmailRef.mk 2 "INBOX"].getLast?).map EmailRef.uid = some 2) ∧
    (∀ v ∈ [EmailRef.mk 2 "INBOX"].map EmailRef.uid, 2 ≤ v) := by
  obtain ⟨u, h1, h2, h3⟩ := search_page_full_page_anchor {}
    ⟨3, fun u => decide (1 ≤ u) && decide (u ≤ 2)⟩ [[]] 0 "INBOX" 1 none none
    [[], ["UID", "1:2"]]
    ⟨[EmailRef.mk 2 "INBOX"], some 2, none, some 2, some 2, 2, true, false⟩
    rfl rfl (by decide)
  have h1' : (some 2 : Option Nat) = some u := h1
  injection h1' with hu
  subst hu
  exact ⟨h1, h2⟩

/-- C2 counterexample: with anchor before_uid = 1 the code clamps the window
end to max(1, 0) = 1, not to B - 1 = 0, and the window [1, 1] contains UID 1,
which is not below the anchor; a matching message with UID 1 is in fact
returned on such a page. -/
theorem make_window_before_one_counterexample :
    _make_window 11 (some 1) none 40 = .ok ⟨1, 1⟩ ∧
    ¬ ((1 : Nat) - 1 = 1) ∧
    Except.map (fun r => r.2.refs.map EmailRef.uid)
      (search_page {} ⟨2, fun u => decide (u = 1)⟩ [[]] 0 "INBOX" 10
        (some 1) none) = .ok [1] :=
  ⟨rfl, by decide, rfl⟩

/-- C2 (amended): for every before_uid anchor B of at least 2 and window size
W, the first window has end = B - 1 and start = max(1, end - W + 1), and no
UID at or above B is ever returned by the progressive search. -/
theorem make_window_before_anchor (K : SearchKnobs) (M : Mailbox) (σ : Store)
    (base P B W : Nat) (hB : 2 ≤ B) :
    (_make_window M.uidnext (some B) none W =
      .ok ⟨max 1 ((B - 1) - W + 1), B - 1⟩) ∧
    (∀ σ' cr uids,
      _search_progressive K M σ base P (some B) none = .ok (σ', cr, uids) →
      ∀ u ∈ uids, u < B) := by
  constructor
  · simp only [_make_window]
    rw [Nat.max_eq_right (by omega : 1 ≤ B - 1)]
  · intro σ' cr uids h u hu
    exact search_progressive_lt K M σ base P B σ' cr uids hB h u hu

/-- Witness for C2 (amended) at anchor 5 and window size 4. -/
theorem make_window_before_anchor_witness :
    _make_window 11 (some 5) none 4 = .ok ⟨1, 4⟩ ∧ (3 : Nat) < 5 := by
  have h := make_window_before_anchor {}
    ⟨11, fun u => decide (1 ≤ u) && decide (u ≤ 10)⟩ [["SEEN"]] 0 1 5 4
    (by omega)
  refine ⟨h.1, ?_⟩
  exact h.2 [["SEEN"], ["SEEN", "UID", "1:4"]] "SEEN UID 1:4" [1, 2, 3, 4]
    rfl 3 (by decide)

/-- C9: search_page never mutates the caller's query: the token list stored
at the caller's query cell is the same after a successful call, because the
engine appends the UID window clause only to a freshly allocated clone. -/
theorem search_page_query_frame (K : SearchKnobs) (M : Mailbox) (σ : Store)
    (base : Nat) (mailbox : String) (P : Nat) (before after : Option Nat)
    (σ' : Store) (page : PagedSearchResult)
    (hbase : base < σ.length)
    (h : search_page K M σ base mailbox P before after = .ok (σ', page)) :
    σ'[base]? = σ[base]? := by
  unfold search_page at h
  split at h
  · cases h
  · split at h
    · cases h
    · rename_i σ1 cr uids hprog
      simp only [Except.ok.injEq, Prod.mk.injEq] at h
      obtain ⟨hσ, hpage⟩ := h
      subst hσ
      exact (search_progressive_inv K M σ base P before after _ _ _
        hprog).2.2.1 base hbase

/-- Witness for C9: a concrete call grows the store with the clone but the
caller's cell 0 is unchanged. -/
theorem search_page_query_frame_witness :
    (([[], ["UID", "1:2"]] : Store)[0]? = ([[]] : Store)[0]?) ∧
    (0 : Nat) < 1 := by
  constructor
  · exact search_page_query_frame {}
      ⟨3, fun u => decide (1 ≤ u) && decide (u ≤ 2)⟩ [[]] 0 "INBOX" 1
      none none [[], ["UID", "1:2"]]
      ⟨[EmailRef.mk 2 "INBOX"], some 2, none, some 2, some 2, 2, true, false⟩
      (by decide) rfl
  · decide

end EmailMgmt
